import Mathlib

/-!
Verification of the cash-flow/metrics kernel of a project-evaluation app.

The kernel under study consists of `calculate_npv`, `calculate_irr`,
`calculate_payback_periods` and the inline cash-flow schedule builder of
`main` (here `buildSchedule`).  Python floats are modelled as exact
rationals (`ℚ`); every use of the kernel keeps rates strictly above `-1`,
where the two semantics describe the same ideal real arithmetic.  A Python
`ZeroDivisionError` is modelled by returning `none` from the function in
which the division occurs.
-/

/-- The six scalar project parameters (`InitialInvestment`,
`ProjectLifeYears`, `AnnualRevenue`, `AnnualCost`, `WACC`, `TaxRate`)
read from the edited extraction form in `main`. -/
structure ProjectParameters where
  initialInvestment : ℚ
  projectLifeYears : ℤ
  annualRevenue : ℚ
  annualCost : ℚ
  wacc : ℚ
  taxRate : ℚ

/-- One row of the cash-flow table built in `main` (keys `Year`, `Revenue`,
`Operating Cost`, `EBIT`, `Tax`, `OCF`, `Investment`, `Net Cash Flow`,
`Discount Factor`, `Discounted Cash Flow`). -/
structure CashFlowPeriod where
  year : ℤ
  revenue : ℚ
  operatingCost : ℚ
  ebit : ℚ
  tax : ℚ
  ocf : ℚ
  investment : ℚ
  netCashFlow : ℚ
  discountFactor : ℚ
  discountedCashFlow : ℚ

/-- The schedule builder inlined in `main` (source lines 322-368): computes
`EBIT = R - OC`, `Tax = EBIT * T if EBIT > 0 else 0`, `NPAT = EBIT - Tax`,
`OCF = NPAT`, appends the year-0 row, then one row per operating year
`1..N` produced by `range(1, N + 1)` (empty whenever `N < 1`, exactly as
Python `range`). -/
def buildSchedule (p : ProjectParameters) : List CashFlowPeriod :=
  let EBIT := p.annualRevenue - p.annualCost
  let Tax := if 0 < EBIT then EBIT * p.taxRate else 0
  let NPAT := EBIT - Tax
  let OCF := NPAT
  { year := 0, revenue := 0, operatingCost := 0, ebit := 0, tax := 0, ocf := 0,
    investment := p.initialInvestment, netCashFlow := p.initialInvestment,
    discountFactor := 1, discountedCashFlow := p.initialInvestment } ::
  (List.range p.projectLifeYears.toNat).map (fun (k : ℕ) =>
    let discount_factor := 1 / (1 + p.wacc) ^ (k + 1)
    { year := (k : ℤ) + 1, revenue := p.annualRevenue, operatingCost := p.annualCost,
      ebit := EBIT, tax := Tax, ocf := OCF, investment := 0, netCashFlow := OCF,
      discountFactor := discount_factor, discountedCashFlow := OCF * discount_factor })

/-- `calculate_npv` (source lines 118-124): `npv = 0.0` then
`npv += cf / (1 + rate) ** t` over `enumerate(cash_flows)`. -/
def calculate_npv (rate : ℚ) (cash_flows : List ℚ) : ℚ :=
  cash_flows.enum.foldl (fun npv tc => npv + tc.2 / (1 + rate) ^ tc.1) 0

/-- The bisection loop of `calculate_irr` (source lines 144-153), with the
iteration count as explicit fuel: `mid_rate = (low_rate + high_rate) / 2`,
return `mid_rate` when `abs(npv) < 0.0001`, raise `low_rate` when
`npv > 0`, lower `high_rate` otherwise, and return the last `low_rate`
when the fuel runs out. -/
def irrLoop (cash_flows : List ℚ) : ℕ → ℚ → ℚ → ℚ
  | 0, low_rate, _ => low_rate
  | Nat.succ n, low_rate, high_rate =>
    let mid_rate := (low_rate + high_rate) / 2
    let npv := calculate_npv mid_rate cash_flows
    if |npv| < 1 / 10000 then mid_rate
    else if 0 < npv then irrLoop cash_flows n mid_rate high_rate
    else irrLoop cash_flows n low_rate mid_rate

/-- `calculate_irr` (source lines 126-153): sentinel `0` for an empty
sequence or a non-negative first element, sentinel `-1` when the npv at
rate `0` is negative, otherwise 100 bisection iterations on `[0, 1]`. -/
def calculate_irr (cash_flows : List ℚ) : ℚ :=
  match cash_flows with
  | [] => 0
  | c0 :: _ =>
    if 0 ≤ c0 then 0
    else if calculate_npv 0 cash_flows < 0 then -1
    else irrLoop cash_flows 100 0 1

/-- The four local variables of `calculate_payback_periods` (source lines
159-164). -/
structure PBState where
  cumulative_cf : ℚ
  payback_period : ℚ
  cumulative_dcf : ℚ
  discounted_payback_period : ℚ

/-- The undiscounted half of one loop iteration of
`calculate_payback_periods` (source lines 170-176).  `none` models the
`ZeroDivisionError` raised by `abs(cumulative_cf) / cf` when `cf == 0`. -/
def ppStep (s : PBState) (t : ℕ) (cf : ℚ) : Option PBState :=
  if s.payback_period = 0 then
    if 0 ≤ s.cumulative_cf + cf then
      if cf = 0 then none
      else some { s with payback_period := (t : ℚ) - 1 + |s.cumulative_cf| / cf }
    else some { s with cumulative_cf := s.cumulative_cf + cf }
  else some s

/-- The discounted half of one loop iteration of
`calculate_payback_periods` (source lines 178-187).  The source computes
`discount_factor = 1 / (1 + wacc) ** t` unconditionally, so a zero base
raises before the guard; `none` models both that division and
`abs(cumulative_dcf) / dcf` with `dcf == 0`. -/
def dppStep (wacc : ℚ) (s : PBState) (t : ℕ) (cf : ℚ) : Option PBState :=
  if (1 + wacc) ^ t = 0 then none
  else
    let dcf := cf * (1 / (1 + wacc) ^ t)
    if s.discounted_payback_period = 0 then
      if 0 ≤ s.cumulative_dcf + dcf then
        if dcf = 0 then none
        else some { s with discounted_payback_period :=
          (t : ℚ) - 1 + |s.cumulative_dcf| / dcf }
      else some { s with cumulative_dcf := s.cumulative_dcf + dcf }
    else some s

/-- One full iteration of the payback loop for year `t`: the undiscounted
block runs first, then the discounted block, as in the source. -/
def pbStep (wacc : ℚ) (s : PBState) (t : ℕ) (cf : ℚ) : Option PBState :=
  match ppStep s t cf with
  | none => none
  | some s1 => dppStep wacc s1 t cf

/-- The loop `for t, cf in enumerate(cash_flows_operating, start=1)` of
`calculate_payback_periods`, with the running year made explicit. -/
def pbRunFrom (wacc : ℚ) : PBState → ℕ → List ℚ → Option PBState
  | s, _, [] => some s
  | s, t, cf :: rest =>
    match pbStep wacc s t cf with
    | none => none
    | some s1 => pbRunFrom wacc s1 (t + 1) rest

/-- `calculate_payback_periods` (source lines 155-189): both cumulatives
start at `-initial_investment`, both results start at `0.0`, and the final
pair is returned. -/
def calculate_payback_periods (initial_investment : ℚ)
    (cash_flows_operating : List ℚ) (wacc : ℚ) : Option (ℚ × ℚ) :=
  match pbRunFrom wacc
      { cumulative_cf := -initial_investment, payback_period := 0,
        cumulative_dcf := -initial_investment, discounted_payback_period := 0 }
      1 cash_flows_operating with
  | none => none
  | some s => some (s.payback_period, s.discounted_payback_period)

/-- One bisection step exactly as worded in the spec (§4.3), as a
transition on a state `(low, high, result)`: a reference this file
compares `irrLoop` against. -/
def bisectStepSpec (cash_flows : List ℚ) : ℚ × ℚ × Option ℚ → ℚ × ℚ × Option ℚ
  | (low, high, some r) => (low, high, some r)
  | (low, high, none) =>
    let mid := (low + high) / 2
    let v := calculate_npv mid cash_flows
    if |v| < 1 / 10000 then (low, high, some mid)
    else if 0 < v then (mid, high, none)
    else (low, mid, none)

/-- The outcome of iterating `bisectStepSpec` `n` times from state `s`:
the early-terminated mid when one was recorded, the final `low`
otherwise. -/
def bisectionResult (cash_flows : List ℚ) (n : ℕ) (s : ℚ × ℚ × Option ℚ) : ℚ :=
  match (bisectStepSpec cash_flows)^[n] s with
  | (low, _, none) => low
  | (_, _, some r) => r

/-- The spec's description of the solver in the non-degenerate case:
iterate `bisectStepSpec` a hundred times from `(0, 1, no result)`; the
result is the early-terminated mid when one was found, the final `low`
otherwise. -/
def irrBisectionSpec (cash_flows : List ℚ) : ℚ :=
  bisectionResult cash_flows 100 (0, 1, none)

/-- The claim's reading of the payback scan (first crossing wins, `0` when
no year ever crosses): scan the flows from year `t`, accumulate on a
failed crossing test, and return the interpolated value of the first year
whose test succeeds. -/
def firstCrossingValue : ℚ → ℕ → List ℚ → ℚ
  | _, _, [] => 0
  | cum, t, cf :: rest =>
    if 0 ≤ cum + cf then (t : ℚ) - 1 + |cum| / cf
    else firstCrossingValue (cum + cf) (t + 1) rest

/-- Invariant carried through the payback loop for the discounted-vs-
undiscounted comparison, at the state reached just before processing year
`t`: either both results are still unset and the discounted cumulative is
below the undiscounted one scaled by the next discount factor, or only the
undiscounted result is set and is at most `t - 1`, or both are set in
order. -/
def PBInv (wacc : ℚ) (t : ℕ) (s : PBState) : Prop :=
  (s.payback_period = 0 ∧ s.discounted_payback_period = 0 ∧
     s.cumulative_cf ≤ 0 ∧ (s.cumulative_cf = 0 → s.cumulative_dcf = 0) ∧
     s.cumulative_dcf ≤ s.cumulative_cf * (1 / (1 + wacc) ^ t)) ∨
  (s.payback_period ≠ 0 ∧ s.discounted_payback_period = 0 ∧
     s.payback_period ≤ (t : ℚ) - 1 ∧ s.cumulative_dcf < 0) ∨
  (s.payback_period ≠ 0 ∧ s.discounted_payback_period ≠ 0 ∧
     s.payback_period ≤ s.discounted_payback_period)

lemma npv_foldl (rate : ℚ) :
    ∀ (l : List ℚ) (n : ℕ) (a : ℚ),
      (List.enumFrom n l).foldl (fun npv tc => npv + tc.2 / (1 + rate) ^ tc.1) a
        = a + ∑ i ∈ Finset.range l.length, l.getD i 0 / (1 + rate) ^ (n + i) := by
  intro l
  induction l with
  | nil => intro n a; simp
  | cons c tl ih =>
    intro n a
    simp only [List.enumFrom, List.foldl]
    rw [ih (n + 1)]
    rw [List.length_cons, Finset.sum_range_succ' _ tl.length]
    simp only [List.getD_cons_succ, List.getD_cons_zero, Nat.add_zero]
    have hsum : (∑ i ∈ Finset.range tl.length, tl.getD i 0 / (1 + rate) ^ (n + (i + 1)))
        = ∑ i ∈ Finset.range tl.length, tl.getD i 0 / (1 + rate) ^ (n + 1 + i) :=
      Finset.sum_congr rfl fun i _ => by rw [show n + (i + 1) = n + 1 + i by omega]
    rw [hsum]
    ring

lemma sum_getD_range (l : List ℚ) :
    ∑ i ∈ Finset.range l.length, l.getD i 0 = l.sum := by
  induction l with
  | nil => simp
  | cons c tl ih =>
    rw [List.length_cons, Finset.sum_range_succ' _ tl.length]
    simp only [List.getD_cons_succ, List.getD_cons_zero, List.sum_cons, ih]
    ring

lemma calculate_npv_eq_sum (rate : ℚ) (cash_flows : List ℚ) :
    calculate_npv rate cash_flows
      = ∑ t ∈ Finset.range cash_flows.length,
          cash_flows.getD t 0 / (1 + rate) ^ t := by
  unfold calculate_npv
  rw [List.enum, npv_foldl]
  simp

/-- Claim C2: for every rate above `-1`, `calculate_npv` is the sum of the
cash flows discounted by position, `cashFlows[t] / (1 + rate) ^ t`; in
particular at rate `0` it is exactly the plain sum of the flows. -/
theorem calculate_npv_spec (rate : ℚ) (cash_flows : List ℚ) (_h : -1 < rate) :
    calculate_npv rate cash_flows
      = (∑ t ∈ Finset.range cash_flows.length,
          cash_flows.getD t 0 / (1 + rate) ^ t) ∧
    calculate_npv 0 cash_flows = cash_flows.sum := by
  refine ⟨calculate_npv_eq_sum rate cash_flows, ?_⟩
  rw [calculate_npv_eq_sum]
  simpa using sum_getD_range cash_flows

/-- Witness for C2 at rate `1` and flows `[2, 4]`. -/
theorem calculate_npv_spec_witness :
    (-1 : ℚ) < 1 ∧
    (calculate_npv 1 [2, 4]
        = (∑ t ∈ Finset.range ([2, 4] : List ℚ).length,
            ([2, 4] : List ℚ).getD t 0 / (1 + 1) ^ t) ∧
      calculate_npv 0 [2, 4] = ([2, 4] : List ℚ).sum) :=
  ⟨by norm_num, calculate_npv_spec 1 [2, 4] (by norm_num)⟩

lemma buildSchedule_length (p : ProjectParameters) :
    (buildSchedule p).length = p.projectLifeYears.toNat + 1 := by
  simp only [buildSchedule, List.length_cons, List.length_map, List.length_range]

/-- Claim C1: for `projectLifeYears = N ≥ 1` the schedule has exactly
`N + 1` periods whose `year` fields are `0, 1, ..., N` in order (hence
strictly increasing), and the year-0 period has zero revenue, cost, EBIT,
tax and OCF, `netCashFlow = initialInvestment` and `discountFactor = 1`. -/
theorem buildSchedule_shape (p : ProjectParameters)
    (h : 1 ≤ p.projectLifeYears) :
    ((buildSchedule p).length : ℤ) = p.projectLifeYears + 1 ∧
    (∀ i : ℕ, ∀ hi : i < (buildSchedule p).length,
      ((buildSchedule p).get ⟨i, hi⟩).year = (i : ℤ)) ∧
    (buildSchedule p).head? = some
      { year := 0, revenue := 0, operatingCost := 0, ebit := 0, tax := 0,
        ocf := 0, investment := p.initialInvestment,
        netCashFlow := p.initialInvestment, discountFactor := 1,
        discountedCashFlow := p.initialInvestment } := by
  refine ⟨?_, ?_, ?_⟩
  · rw [buildSchedule_length]
    push_cast
    rw [Int.toNat_of_nonneg (by omega)]
  · intro i hi
    cases i with
    | zero => simp [buildSchedule]
    | succ j =>
      have hj : j < p.projectLifeYears.toNat := by
        have h2 := hi
        rw [buildSchedule_length] at h2
        omega
      simp only [buildSchedule, List.get_eq_getElem, List.getElem_cons_succ,
        List.getElem_map, List.getElem_range]
      push_cast
      ring
  · simp [buildSchedule]

/-- Witness for C1 at the spec's seed scenario with a two-year life. -/
theorem buildSchedule_shape_witness :
    (1 : ℤ) ≤ 2 ∧
    (((buildSchedule ⟨-1000, 2, 800, 500, 1/10, 1/5⟩).length : ℤ) = 2 + 1 ∧
      (∀ i : ℕ, ∀ hi : i < (buildSchedule ⟨-1000, 2, 800, 500, 1/10, 1/5⟩).length,
        ((buildSchedule ⟨-1000, 2, 800, 500, 1/10, 1/5⟩).get ⟨i, hi⟩).year = (i : ℤ)) ∧
      (buildSchedule ⟨-1000, 2, 800, 500, 1/10, 1/5⟩).head? = some
        { year := 0, revenue := 0, operatingCost := 0, ebit := 0, tax := 0,
          ocf := 0, investment := -1000, netCashFlow := -1000,
          discountFactor := 1, discountedCashFlow := -1000 }) :=
  ⟨by decide, buildSchedule_shape ⟨-1000, 2, 800, 500, 1/10, 1/5⟩ (by decide)⟩

/-- Claim C9 counterexample: at `projectLifeYears = 0 < 1` the builder does
not refuse to compute — it silently produces a schedule consisting of the
single year-0 period. -/
theorem buildSchedule_no_refusal :
    (0 : ℤ) < 1 ∧
    buildSchedule ⟨-100, 0, 50, 30, 1/10, 1/5⟩ =
      [{ year := 0, revenue := 0, operatingCost := 0, ebit := 0, tax := 0,
         ocf := 0, investment := -100, netCashFlow := -100,
         discountFactor := 1, discountedCashFlow := -100 }] := by
  exact ⟨by norm_num, by simp [buildSchedule]⟩

/-- Claim C9 (amended): the schedule builder is a total pure function; it
never signals a failure.  For `projectLifeYears < 1` it produces the
degenerate schedule holding only the year-0 period (the operating-year
range is empty), rather than refusing to compute; validation of
`projectLifeYears ≥ 1` happens only in the UI layer. -/
theorem buildSchedule_degenerate (p : ProjectParameters)
    (h : p.projectLifeYears < 1) :
    buildSchedule p =
      [{ year := 0, revenue := 0, operatingCost := 0, ebit := 0, tax := 0,
         ocf := 0, investment := p.initialInvestment,
         netCashFlow := p.initialInvestment, discountFactor := 1,
         discountedCashFlow := p.initialInvestment }] := by
  have h0 : p.projectLifeYears.toNat = 0 := by omega
  simp [buildSchedule, h0]

/-- Witness for the amended C9 at a zero-year project. -/
theorem buildSchedule_degenerate_witness :
    (0 : ℤ) < 1 ∧
    buildSchedule ⟨5, 0, 1, 2, 1/2, 1/10⟩ =
      [{ year := 0, revenue := 0, operatingCost := 0, ebit := 0, tax := 0,
         ocf := 0, investment := 5, netCashFlow := 5,
         discountFactor := 1, discountedCashFlow := 5 }] :=
  ⟨by norm_num, buildSchedule_degenerate ⟨5, 0, 1, 2, 1/2, 1/10⟩ (by norm_num)⟩

/-- Claim C10: `calculate_payback_periods` is not total on inputs
satisfying its stated precondition (a non-negative initial magnitude): at
initial magnitude `0` with a first operating flow of `0`, the crossing
test `0 + 0 ≥ 0` succeeds and `abs(0) / 0` raises a division-by-zero
error, modelled here as `none`. -/
theorem payback_division_by_zero :
    (0 : ℚ) ≤ 0 ∧ calculate_payback_periods 0 [0] (1/10) = none := by
  refine ⟨le_rfl, ?_⟩
  norm_num [calculate_payback_periods, pbRunFrom, pbStep, ppStep]

lemma npv_pair (rate c0 c1 : ℚ) :
    calculate_npv rate [c0, c1] = c0 + c1 / (1 + rate) := by
  simp [calculate_npv, List.enum, List.enumFrom, List.foldl]

lemma bisectStepSpec_fixed (cash_flows : List ℚ) (low high r : ℚ) (n : ℕ) :
    (bisectStepSpec cash_flows)^[n] (low, high, some r) = (low, high, some r) :=
  Function.iterate_fixed rfl n

lemma bisectionResult_succ (cash_flows : List ℚ) (m : ℕ) (s : ℚ × ℚ × Option ℚ) :
    bisectionResult cash_flows (m + 1) s
      = bisectionResult cash_flows m (bisectStepSpec cash_flows s) := by
  unfold bisectionResult
  rw [Function.iterate_succ_apply]

lemma bisectionResult_some (cash_flows : List ℚ) (m : ℕ) (low high r : ℚ) :
    bisectionResult cash_flows m (low, high, some r) = r := by
  unfold bisectionResult
  rw [bisectStepSpec_fixed]

lemma irrLoop_eq_bisectionResult (cash_flows : List ℚ) :
    ∀ (n : ℕ) (low high : ℚ),
      irrLoop cash_flows n low high
        = bisectionResult cash_flows n (low, high, none) := by
  intro n
  induction n with
  | zero => intro low high; rfl
  | succ m ih =>
    intro low high
    rw [bisectionResult_succ]
    have hstep : bisectStepSpec cash_flows (low, high, none)
        = (if |calculate_npv ((low + high) / 2) cash_flows| < 1 / 10000
            then (low, high, some ((low + high) / 2))
            else if 0 < calculate_npv ((low + high) / 2) cash_flows
              then ((low + high) / 2, high, none)
              else (low, (low + high) / 2, none)) := rfl
    by_cases h1 : |calculate_npv ((low + high) / 2) cash_flows| < 1 / 10000
    · rw [hstep, if_pos h1, bisectionResult_some]
      simp only [irrLoop, if_pos h1]
    · by_cases h2 : 0 < calculate_npv ((low + high) / 2) cash_flows
      · rw [hstep, if_neg h1, if_pos h2, ← ih]
        simp only [irrLoop, if_neg h1, if_pos h2]
      · rw [hstep, if_neg h1, if_neg h2, ← ih]
        simp only [irrLoop, if_neg h1, if_neg h2]

/-- Claim C4: in the non-degenerate case (negative first flow, npv at rate
`0` non-negative) `calculate_irr` behaves exactly as the spec's bisection
on `[0, 1]`: at most 100 iterations of `mid = (low + high) / 2`, early
return of `mid` when `|npv(mid)| < 1e-4`, `low = mid` when `npv > 0`,
`high = mid` otherwise, and the final `low` after 100 iterations. -/
theorem calculate_irr_bisection (cash_flows : List ℚ)
    (h0 : cash_flows.headI < 0)
    (h1 : 0 ≤ calculate_npv 0 cash_flows) :
    calculate_irr cash_flows = irrBisectionSpec cash_flows := by
  cases cash_flows with
  | nil =>
    rw [List.headI_nil] at h0
    exact absurd h0 (lt_irrefl 0)
  | cons c0 rest =>
    rw [List.headI_cons] at h0
    have hc : ¬ (0 ≤ c0) := not_le.mpr h0
    have hn : ¬ (calculate_npv 0 (c0 :: rest) < 0) := not_lt.mpr h1
    show (if 0 ≤ c0 then 0
      else if calculate_npv 0 (c0 :: rest) < 0 then -1
      else irrLoop (c0 :: rest) 100 0 1) = irrBisectionSpec (c0 :: rest)
    rw [if_neg hc, if_neg hn, irrLoop_eq_bisectionResult]
    rfl

/-- Witness for C4 on the flows `[-1, 2]`. -/
theorem calculate_irr_bisection_witness :
    (([-1, 2] : List ℚ).headI < 0 ∧ 0 ≤ calculate_npv 0 [-1, 2]) ∧
    calculate_irr [-1, 2] = irrBisectionSpec [-1, 2] :=
  ⟨⟨by norm_num, by rw [npv_pair]; norm_num⟩,
    calculate_irr_bisection [-1, 2] (by norm_num)
      (by rw [npv_pair]; norm_num)⟩

lemma ppStep_of_ne (s : PBState) (t : ℕ) (cf : ℚ)
    (h : s.payback_period ≠ 0) : ppStep s t cf = some s := by
  simp [ppStep, h]

lemma ppStep_of_fail (s : PBState) (t : ℕ) (cf : ℚ)
    (h0 : s.payback_period = 0) (h : ¬ 0 ≤ s.cumulative_cf + cf) :
    ppStep s t cf = some { s with cumulative_cf := s.cumulative_cf + cf } := by
  simp [ppStep, h0, h]

lemma ppStep_of_fire (s : PBState) (t : ℕ) (cf : ℚ)
    (h0 : s.payback_period = 0) (h : 0 ≤ s.cumulative_cf + cf) (hcf : cf ≠ 0) :
    ppStep s t cf
      = some { s with payback_period := (t : ℚ) - 1 + |s.cumulative_cf| / cf } := by
  simp [ppStep, h0, h, hcf]

lemma dppStep_of_ne (w : ℚ) (s : PBState) (t : ℕ) (cf : ℚ)
    (hw : (1 + w) ^ t ≠ 0) (h : s.discounted_payback_period ≠ 0) :
    dppStep w s t cf = some s := by
  simp [dppStep, hw, h]

lemma dppStep_of_fail (w : ℚ) (s : PBState) (t : ℕ) (cf : ℚ)
    (hw : (1 + w) ^ t ≠ 0) (h0 : s.discounted_payback_period = 0)
    (h : ¬ 0 ≤ s.cumulative_dcf + cf * (1 / (1 + w) ^ t)) :
    dppStep w s t cf
      = some { s with cumulative_dcf :=
          s.cumulative_dcf + cf * (1 / (1 + w) ^ t) } := by
  simp only [dppStep, if_neg hw]
  rw [if_pos h0, if_neg h]

lemma dppStep_of_fire (w : ℚ) (s : PBState) (t : ℕ) (cf : ℚ)
    (hw : (1 + w) ^ t ≠ 0) (h0 : s.discounted_payback_period = 0)
    (h : 0 ≤ s.cumulative_dcf + cf * (1 / (1 + w) ^ t))
    (hdcf : cf * (1 / (1 + w) ^ t) ≠ 0) :
    dppStep w s t cf
      = some { s with discounted_payback_period :=
          (t : ℚ) - 1 + |s.cumulative_dcf| / (cf * (1 / (1 + w) ^ t)) } := by
  simp only [dppStep, if_neg hw]
  rw [if_pos h0, if_pos h, if_neg hdcf]

lemma ppStep_preserves (s s1 : PBState) (t : ℕ) (cf : ℚ)
    (h : ppStep s t cf = some s1) :
    s1.discounted_payback_period = s.discounted_payback_period ∧
    s1.cumulative_dcf = s.cumulative_dcf := by
  unfold ppStep at h
  split_ifs at h <;>
    first
      | exact Option.noConfusion h
      | (injection h with h2; subst h2; exact ⟨rfl, rfl⟩)

lemma dppStep_preserves (w : ℚ) (s s1 : PBState) (t : ℕ) (cf : ℚ)
    (h : dppStep w s t cf = some s1) :
    s1.payback_period = s.payback_period ∧
    s1.cumulative_cf = s.cumulative_cf := by
  simp only [dppStep] at h
  split_ifs at h <;>
    first
      | exact Option.noConfusion h
      | (injection h with h2; subst h2; exact ⟨rfl, rfl⟩)

lemma pbStep_eq_dppStep (w : ℚ) (s s1 : PBState) (t : ℕ) (cf : ℚ)
    (hpp : ppStep s t cf = some s1) : pbStep w s t cf = dppStep w s1 t cf := by
  unfold pbStep
  rw [hpp]

lemma pbRunFrom_nil (w : ℚ) (s : PBState) (t : ℕ) :
    pbRunFrom w s t [] = some s := rfl

lemma pbRunFrom_cons_some (w : ℚ) (s s1 : PBState) (t : ℕ) (cf : ℚ)
    (rest : List ℚ) (hstep : pbStep w s t cf = some s1) :
    pbRunFrom w s t (cf :: rest) = pbRunFrom w s1 (t + 1) rest := by
  show (match pbStep w s t cf with
    | none => none
    | some s1 => pbRunFrom w s1 (t + 1) rest) = pbRunFrom w s1 (t + 1) rest
  rw [hstep]

lemma pbRunFrom_cons_none (w : ℚ) (s : PBState) (t : ℕ) (cf : ℚ)
    (rest : List ℚ) (hstep : pbStep w s t cf = none) :
    pbRunFrom w s t (cf :: rest) = none := by
  show (match pbStep w s t cf with
    | none => none
    | some s1 => pbRunFrom w s1 (t + 1) rest) = none
  rw [hstep]

lemma pbRunFrom_pp_frozen (w : ℚ) :
    ∀ (flows : List ℚ) (t : ℕ) (s s2 : PBState), s.payback_period ≠ 0 →
      pbRunFrom w s t flows = some s2 →
      s2.payback_period = s.payback_period := by
  intro flows
  induction flows with
  | nil =>
    intro t s s2 _ hrun
    rw [pbRunFrom_nil] at hrun
    injection hrun with h
    rw [← h]
  | cons cf rest ih =>
    intro t s s2 hne hrun
    cases hstep : pbStep w s t cf with
    | none => rw [pbRunFrom_cons_none w s t cf rest hstep] at hrun; exact Option.noConfusion hrun
    | some s1 =>
      rw [pbRunFrom_cons_some w s s1 t cf rest hstep] at hrun
      have h1 : s1.payback_period = s.payback_period := by
        rcases hpp : ppStep s t cf with _ | s0
        · unfold pbStep at hstep
          rw [hpp] at hstep
          exact Option.noConfusion hstep
        · have := pbStep_eq_dppStep w s s0 t cf hpp
          rw [this] at hstep
          have hpres := dppStep_preserves w s0 s1 t cf hstep
          rw [hpres.1, (by rw [ppStep_of_ne s t cf hne] at hpp; injection hpp with h; rw [← h] :
            s0.payback_period = s.payback_period)]
      rw [ih (t + 1) s1 s2 (by rw [h1]; exact hne) hrun, h1]

lemma pbRunFrom_dpp_frozen (w : ℚ) :
    ∀ (flows : List ℚ) (t : ℕ) (s s2 : PBState),
      s.discounted_payback_period ≠ 0 →
      pbRunFrom w s t flows = some s2 →
      s2.discounted_payback_period = s.discounted_payback_period := by
  intro flows
  induction flows with
  | nil =>
    intro t s s2 _ hrun
    rw [pbRunFrom_nil] at hrun
    injection hrun with h
    rw [← h]
  | cons cf rest ih =>
    intro t s s2 hne hrun
    cases hstep : pbStep w s t cf with
    | none => rw [pbRunFrom_cons_none w s t cf rest hstep] at hrun; exact Option.noConfusion hrun
    | some s1 =>
      rw [pbRunFrom_cons_some w s s1 t cf rest hstep] at hrun
      have h1 : s1.discounted_payback_period = s.discounted_payback_period := by
        rcases hpp : ppStep s t cf with _ | s0
        · unfold pbStep at hstep
          rw [hpp] at hstep
          exact Option.noConfusion hstep
        · have h0 : s0.discounted_payback_period = s.discounted_payback_period :=
            (ppStep_preserves s s0 t cf hpp).1
          have := pbStep_eq_dppStep w s s0 t cf hpp
          rw [this] at hstep
          have h0ne : s0.discounted_payback_period ≠ 0 := by rw [h0]; exact hne
          by_cases hw : (1 + w) ^ t = 0
          · unfold dppStep at hstep
            rw [if_pos hw] at hstep
            exact Option.noConfusion hstep
          · rw [dppStep_of_ne w s0 t cf hw h0ne] at hstep
            injection hstep with h2
            rw [← h2, h0]
      rw [ih (t + 1) s1 s2 (by rw [h1]; exact hne) hrun, h1]

lemma pbRunFrom_pp_never (w : ℚ) :
    ∀ (flows : List ℚ) (t : ℕ) (s s2 : PBState),
      s.payback_period = 0 →
      (∀ j, j < flows.length →
        s.cumulative_cf + (flows.take j).sum + flows.getD j 0 < 0) →
      pbRunFrom w s t flows = some s2 → s2.payback_period = 0 := by
  intro flows
  induction flows with
  | nil =>
    intro t s s2 h0 _ hrun
    rw [pbRunFrom_nil] at hrun
    injection hrun with h
    rw [← h]
    exact h0
  | cons cf rest ih =>
    intro t s s2 h0 hfail hrun
    have hf0 : s.cumulative_cf + cf < 0 := by
      have h := hfail 0 (by simp)
      simpa using h
    have hpp : ppStep s t cf
        = some { s with cumulative_cf := s.cumulative_cf + cf } :=
      ppStep_of_fail s t cf h0 (not_le.mpr hf0)
    cases hstep : pbStep w s t cf with
    | none =>
      rw [pbRunFrom_cons_none w s t cf rest hstep] at hrun
      exact Option.noConfusion hrun
    | some s1 =>
      rw [pbRunFrom_cons_some w s s1 t cf rest hstep] at hrun
      rw [pbStep_eq_dppStep w s _ t cf hpp] at hstep
      have hpres := dppStep_preserves w _ s1 t cf hstep
      have hcum : s1.cumulative_cf = s.cumulative_cf + cf := hpres.2
      have hppz : s1.payback_period = 0 := by
        rw [hpres.1]
        exact h0
      refine ih (t + 1) s1 s2 hppz ?_ hrun
      intro j hj
      have h := hfail (j + 1) (by simpa using Nat.succ_lt_succ hj)
      rw [List.take_succ_cons, List.sum_cons, List.getD_cons_succ] at h
      rw [hcum]
      linarith

lemma pbRunFrom_dpp_never (w : ℚ) :
    ∀ (flows : List ℚ) (t : ℕ) (s s2 : PBState),
      s.discounted_payback_period = 0 →
      (∀ j, j < flows.length →
        s.cumulative_dcf
          + (∑ i ∈ Finset.range j, flows.getD i 0 * (1 / (1 + w) ^ (t + i)))
          + flows.getD j 0 * (1 / (1 + w) ^ (t + j)) < 0) →
      pbRunFrom w s t flows = some s2 →
      s2.discounted_payback_period = 0 := by
  intro flows
  induction flows with
  | nil =>
    intro t s s2 h0 _ hrun
    rw [pbRunFrom_nil] at hrun
    injection hrun with h
    rw [← h]
    exact h0
  | cons cf rest ih =>
    intro t s s2 h0 hfail hrun
    have hf0 : s.cumulative_dcf + cf * (1 / (1 + w) ^ t) < 0 := by
      have h := hfail 0 (by simp)
      simpa using h
    rcases hppc : ppStep s t cf with _ | s0
    · have : pbStep w s t cf = none := by
        unfold pbStep
        rw [hppc]
      rw [pbRunFrom_cons_none w s t cf rest this] at hrun
      exact Option.noConfusion hrun
    · have hpres0 := ppStep_preserves s s0 t cf hppc
      by_cases hw : (1 + w) ^ t = 0
      · have : pbStep w s t cf = none := by
          rw [pbStep_eq_dppStep w s s0 t cf hppc]
          unfold dppStep
          rw [if_pos hw]
        rw [pbRunFrom_cons_none w s t cf rest this] at hrun
        exact Option.noConfusion hrun
      · have hfail0 : ¬ 0 ≤ s0.cumulative_dcf + cf * (1 / (1 + w) ^ t) := by
          rw [hpres0.2]
          exact not_le.mpr hf0
        have hstep : pbStep w s t cf
            = some { s0 with cumulative_dcf :=
                s0.cumulative_dcf + cf * (1 / (1 + w) ^ t) } := by
          rw [pbStep_eq_dppStep w s s0 t cf hppc]
          exact dppStep_of_fail w s0 t cf hw (by rw [hpres0.1]; exact h0) hfail0
        rw [pbRunFrom_cons_some w s _ t cf rest hstep] at hrun
        have hd1 : ({ s0 with cumulative_dcf :=
            s0.cumulative_dcf + cf * (1 / (1 + w) ^ t) } : PBState).discounted_payback_period
            = s0.discounted_payback_period := rfl
        have hd2 : ({ s0 with cumulative_dcf :=
            s0.cumulative_dcf + cf * (1 / (1 + w) ^ t) } : PBState).cumulative_dcf
            = s0.cumulative_dcf + cf * (1 / (1 + w) ^ t) := rfl
        refine ih (t + 1) _ s2 ?_ ?_ hrun
        · rw [hd1, hpres0.1]
          exact h0
        · intro j hj
          have h := hfail (j + 1) (by simpa using Nat.succ_lt_succ hj)
          rw [Finset.sum_range_succ' _ j] at h
          simp only [List.getD_cons_succ, List.getD_cons_zero, Nat.add_zero] at h
          have hshift : ∀ i : ℕ, t + (i + 1) = t + 1 + i := by omega
          rw [hd2, hpres0.2]
          have hsum : (∑ i ∈ Finset.range j, rest.getD i 0 * (1 / (1 + w) ^ (t + 1 + i)))
              = ∑ i ∈ Finset.range j, rest.getD i 0 * (1 / (1 + w) ^ (t + (i + 1))) :=
            Finset.sum_congr rfl fun i _ => by rw [hshift i]
          rw [hsum, show t + 1 + j = t + (j + 1) by omega]
          linarith

/-- Claim C6 counterexample: with initial magnitude `0`, flows `[5, 7]`
and wacc `1`, the crossing test succeeds already in year 1 and records the
value `0 + |0|/5 = 0.0`; since the guard tests `payback_period == 0.0`,
year 2 records again and overwrites it with `1.0` (same for the
discounted side) — the value set at the first crossing year is not kept,
and the code result differs from the first-crossing reading of the claim. -/
theorem payback_overwrite_violation :
    calculate_payback_periods 0 [5, 7] 1 = some (1, 1) ∧
    firstCrossingValue (-0) 1 [5, 7] = 0 ∧ (1 : ℚ) ≠ 0 := by
  refine ⟨?_, ?_, by norm_num⟩
  · norm_num [calculate_payback_periods, pbRunFrom, pbStep, ppStep, dppStep]
  · norm_num [firstCrossingValue]

/-- Claim C6 (amended): a payback value, once recorded with a nonzero
value, is never overwritten by a later year — but a recorded value of
exactly `0.0` (possible only when the running cumulative is zero at a
year-1 crossing, i.e. initial magnitude `0`) leaves the `== 0.0` guard
open and can be overwritten, so "recorded at most once" fails in that
case (see the counterexample).  The second half of the claim holds: if
the (resp. discounted) cumulative never reaches zero within the operating
years, the corresponding result remains at its initial value `0.0`. -/
theorem payback_first_crossing_amended (I w : ℚ) (flows : List ℚ) :
    (∀ (t : ℕ) (s s2 : PBState), s.payback_period ≠ 0 →
      pbRunFrom w s t flows = some s2 →
      s2.payback_period = s.payback_period) ∧
    (∀ (t : ℕ) (s s2 : PBState), s.discounted_payback_period ≠ 0 →
      pbRunFrom w s t flows = some s2 →
      s2.discounted_payback_period = s.discounted_payback_period) ∧
    ((∀ j, j < flows.length →
        -I + (flows.take j).sum + flows.getD j 0 < 0) →
      ∀ pr : ℚ × ℚ, calculate_payback_periods I flows w = some pr →
        pr.1 = 0) ∧
    ((∀ j, j < flows.length →
        -I + (∑ i ∈ Finset.range j, flows.getD i 0 * (1 / (1 + w) ^ (1 + i)))
          + flows.getD j 0 * (1 / (1 + w) ^ (1 + j)) < 0) →
      ∀ pr : ℚ × ℚ, calculate_payback_periods I flows w = some pr →
        pr.2 = 0) := by
  refine ⟨fun t s s2 h hr => pbRunFrom_pp_frozen w flows t s s2 h hr,
    fun t s s2 h hr => pbRunFrom_dpp_frozen w flows t s s2 h hr, ?_, ?_⟩
  · intro hfail pr hpr
    rcases hrun : pbRunFrom w ⟨-I, 0, -I, 0⟩ 1 flows with _ | s
    · unfold calculate_payback_periods at hpr
      rw [hrun] at hpr
      exact Option.noConfusion hpr
    · have hz := pbRunFrom_pp_never w flows 1 ⟨-I, 0, -I, 0⟩ s rfl hfail hrun
      unfold calculate_payback_periods at hpr
      rw [hrun] at hpr
      injection hpr with h
      rw [← h]
      exact hz
  · intro hfail pr hpr
    rcases hrun : pbRunFrom w ⟨-I, 0, -I, 0⟩ 1 flows with _ | s
    · unfold calculate_payback_periods at hpr
      rw [hrun] at hpr
      exact Option.noConfusion hpr
    · have hz := pbRunFrom_dpp_never w flows 1 ⟨-I, 0, -I, 0⟩ s rfl hfail hrun
      unfold calculate_payback_periods at hpr
      rw [hrun] at hpr
      injection hpr with h
      rw [← h]
      exact hz

/-- Witness for the amended C6: magnitude `5`, flows `[1, 1]`, wacc `1` —
the cumulative never reaches zero and the returned pair is `(0.0, 0.0)`. -/
theorem payback_first_crossing_amended_witness :
    calculate_payback_periods 5 [1, 1] 1 = some (0, 0) ∧
    ((0 : ℚ), (0 : ℚ)).1 = 0 := by
  have hrun : calculate_payback_periods 5 [1, 1] 1 = some (0, 0) := by
    norm_num [calculate_payback_periods, pbRunFrom, pbStep, ppStep, dppStep]
  have hfail : ∀ j, j < ([1, 1] : List ℚ).length →
      -(5 : ℚ) + (([1, 1] : List ℚ).take j).sum + ([1, 1] : List ℚ).getD j 0 < 0 := by
    intro j hj
    have hj2 : j < 2 := by simpa using hj
    interval_cases j <;> norm_num
  exact ⟨hrun, (payback_first_crossing_amended 5 1 [1, 1]).2.2.1 hfail (0, 0) hrun⟩

lemma ppStep_isSome (s : PBState) (t : ℕ) (cf : ℚ) (hcf : cf ≠ 0) :
    ∃ s1, ppStep s t cf = some s1 := by
  by_cases h0 : s.payback_period = 0
  · by_cases hge : 0 ≤ s.cumulative_cf + cf
    · exact ⟨_, ppStep_of_fire s t cf h0 hge hcf⟩
    · exact ⟨_, ppStep_of_fail s t cf h0 hge⟩
  · exact ⟨_, ppStep_of_ne s t cf h0⟩

lemma dppStep_isSome (w : ℚ) (s : PBState) (t : ℕ) (cf : ℚ)
    (hw : (1 + w) ^ t ≠ 0) (hdcf : cf * (1 / (1 + w) ^ t) ≠ 0) :
    ∃ s2, dppStep w s t cf = some s2 := by
  by_cases h0 : s.discounted_payback_period = 0
  · by_cases hge : 0 ≤ s.cumulative_dcf + cf * (1 / (1 + w) ^ t)
    · exact ⟨_, dppStep_of_fire w s t cf hw h0 hge hdcf⟩
    · exact ⟨_, dppStep_of_fail w s t cf hw h0 hge⟩
  · exact ⟨_, dppStep_of_ne w s t cf hw h0⟩

lemma pbRunFrom_append_some (w : ℚ) :
    ∀ (l1 l2 : List ℚ) (s s1 : PBState) (t : ℕ),
      pbRunFrom w s t l1 = some s1 →
      pbRunFrom w s t (l1 ++ l2) = pbRunFrom w s1 (t + l1.length) l2 := by
  intro l1
  induction l1 with
  | nil =>
    intro l2 s s1 t h
    rw [pbRunFrom_nil] at h
    injection h with h
    subst h
    simp
  | cons cf rest ih =>
    intro l2 s s1 t h
    cases hstep : pbStep w s t cf with
    | none =>
      rw [pbRunFrom_cons_none w s t cf rest hstep] at h
      exact Option.noConfusion h
    | some s' =>
      rw [pbRunFrom_cons_some w s s' t cf rest hstep] at h
      rw [List.cons_append, pbRunFrom_cons_some w s s' t cf (rest ++ l2) hstep,
        ih l2 s' s1 (t + 1) h]
      have hlen : t + 1 + rest.length = t + (cf :: rest).length := by
        simp [List.length_cons]
        omega
      rw [hlen]

/-- Claim C7: whenever the loop of `calculate_payback_periods` records the
undiscounted payback at operating year `k + 1` (the result is still unset
and the crossing test `cumulative + cf ≥ 0` succeeds on that year's flow),
the recorded value is `(k + 1) - 1 + |cumulative_before| / cf`, where
`cumulative_before` is the running cumulative just before that year; the
discounted payback is recorded identically except that the year's flow is
first multiplied by `(1 + wacc)^(-(k + 1))` in both the crossing test and
the interpolation. -/
theorem payback_recording_formula (I w cf : ℚ) (flows : List ℚ) (k : ℕ)
    (s : PBState)
    (hw : 1 + w ≠ 0) (hk : k < flows.length) (hget : flows.getD k 0 = cf)
    (hcf : cf ≠ 0)
    (hpre : pbRunFrom w ⟨-I, 0, -I, 0⟩ 1 (flows.take k) = some s) :
    (s.payback_period = 0 → 0 ≤ s.cumulative_cf + cf →
      Option.map PBState.payback_period
          (pbRunFrom w ⟨-I, 0, -I, 0⟩ 1 (flows.take (k + 1)))
        = some (((k + 1 : ℕ) : ℚ) - 1 + |s.cumulative_cf| / cf)) ∧
    (s.discounted_payback_period = 0 →
      0 ≤ s.cumulative_dcf + cf * (1 / (1 + w) ^ (k + 1)) →
      Option.map PBState.discounted_payback_period
          (pbRunFrom w ⟨-I, 0, -I, 0⟩ 1 (flows.take (k + 1)))
        = some (((k + 1 : ℕ) : ℚ) - 1
            + |s.cumulative_dcf| / (cf * (1 / (1 + w) ^ (k + 1))))) := by
  have hpow : (1 + w) ^ (k + 1) ≠ 0 := pow_ne_zero _ hw
  have hdcf : cf * (1 / (1 + w) ^ (k + 1)) ≠ 0 :=
    mul_ne_zero hcf (one_div_ne_zero hpow)
  have htake : flows.take (k + 1) = flows.take k ++ [cf] := by
    rw [List.take_succ]
    congr 1
    rw [List.getElem?_eq_getElem hk]
    rw [List.getD_eq_getElem _ _ hk] at hget
    rw [hget]
    rfl
  have hlen : (flows.take k).length = k := by
    rw [List.length_take]
    omega
  have happ : pbRunFrom w ⟨-I, 0, -I, 0⟩ 1 (flows.take (k + 1))
      = pbRunFrom w s (k + 1) [cf] := by
    rw [htake, pbRunFrom_append_some w (flows.take k) [cf] _ s 1 hpre, hlen,
      Nat.add_comm 1 k]
  constructor
  · intro hpz hge
    have hpp : ppStep s (k + 1) cf
        = some { s with payback_period :=
            ((k + 1 : ℕ) : ℚ) - 1 + |s.cumulative_cf| / cf } :=
      ppStep_of_fire s (k + 1) cf hpz hge hcf
    obtain ⟨s2, hd2⟩ := dppStep_isSome w _ (k + 1) cf hpow hdcf
    have hrun1 : pbRunFrom w s (k + 1) [cf] = some s2 := by
      rw [show ([cf] : List ℚ) = cf :: [] from rfl,
        pbRunFrom_cons_some w s s2 (k + 1) cf []
          (by rw [pbStep_eq_dppStep w s _ (k + 1) cf hpp]; exact hd2),
        pbRunFrom_nil]
    have hval : s2.payback_period
        = ((k + 1 : ℕ) : ℚ) - 1 + |s.cumulative_cf| / cf := by
      rw [(dppStep_preserves w _ s2 (k + 1) cf hd2).1]
    rw [happ, hrun1]
    rw [Option.map_some']
    rw [hval]
  · intro hdz hge
    obtain ⟨s1, hpp⟩ := ppStep_isSome s (k + 1) cf hcf
    have hpres1 := ppStep_preserves s s1 (k + 1) cf hpp
    have hd : dppStep w s1 (k + 1) cf
        = some { s1 with discounted_payback_period :=
            ((k + 1 : ℕ) : ℚ) - 1
              + |s1.cumulative_dcf| / (cf * (1 / (1 + w) ^ (k + 1))) } :=
      dppStep_of_fire w s1 (k + 1) cf hpow
        (by rw [hpres1.1]; exact hdz)
        (by rw [hpres1.2]; exact hge) hdcf
    have hrun1 : pbRunFrom w s (k + 1) [cf]
        = some { s1 with discounted_payback_period :=
            ((k + 1 : ℕ) : ℚ) - 1
              + |s1.cumulative_dcf| / (cf * (1 / (1 + w) ^ (k + 1))) } := by
      rw [show ([cf] : List ℚ) = cf :: [] from rfl,
        pbRunFrom_cons_some w s _ (k + 1) cf []
          (by rw [pbStep_eq_dppStep w s s1 (k + 1) cf hpp]; exact hd),
        pbRunFrom_nil]
    rw [happ, hrun1, Option.map_some']
    rw [show ({ s1 with discounted_payback_period :=
        ((k + 1 : ℕ) : ℚ) - 1
          + |s1.cumulative_dcf| / (cf * (1 / (1 + w) ^ (k + 1))) }
          : PBState).discounted_payback_period
      = ((k + 1 : ℕ) : ℚ) - 1
          + |s1.cumulative_dcf| / (cf * (1 / (1 + w) ^ (k + 1))) from rfl]
    rw [hpres1.2]

/-- Witness for C7: magnitude `10`, flows `[4, 7]`, wacc `1/10`; after
year 1 the state is `(-6, 0, -70/11, 0)` and year 2 records the
undiscounted payback `1 + 6/7`. -/
theorem payback_recording_formula_witness :
    pbRunFrom (1/10) ⟨-10, 0, -10, 0⟩ 1 (([4, 7] : List ℚ).take 1)
      = some ⟨-6, 0, -70/11, 0⟩ ∧
    Option.map PBState.payback_period
        (pbRunFrom (1/10) ⟨-10, 0, -10, 0⟩ 1 (([4, 7] : List ℚ).take 2))
      = some (((2 : ℕ) : ℚ) - 1 + |(-6 : ℚ)| / 7) := by
  have hpre : pbRunFrom (1/10) ⟨-10, 0, -10, 0⟩ 1 (([4, 7] : List ℚ).take 1)
      = some ⟨-6, 0, -70/11, 0⟩ := by
    norm_num [pbRunFrom, pbStep, ppStep, dppStep, List.take]
  refine ⟨hpre, ?_⟩
  exact (payback_recording_formula 10 (1/10) 7 [4, 7] 1 ⟨-6, 0, -70/11, 0⟩
    (by norm_num) (by norm_num) (by norm_num) (by norm_num) hpre).1
    (by norm_num) (by norm_num)

lemma PBInv_intro (w : ℚ) (t : ℕ) (s : PBState) (c p d q : ℚ)
    (hc : s.cumulative_cf = c) (hp : s.payback_period = p)
    (hd : s.cumulative_dcf = d) (hq : s.discounted_payback_period = q)
    (h : (p = 0 ∧ q = 0 ∧ c ≤ 0 ∧ (c = 0 → d = 0) ∧ d ≤ c * (1 / (1 + w) ^ t)) ∨
         (p ≠ 0 ∧ q = 0 ∧ p ≤ (t : ℚ) - 1 ∧ d < 0) ∨
         (p ≠ 0 ∧ q ≠ 0 ∧ p ≤ q)) :
    PBInv w t s := by
  unfold PBInv
  rw [hc, hp, hd, hq]
  exact h

lemma pbStep_inv (w : ℚ) (hw : 0 < w) (t : ℕ) (ht : 1 ≤ t) (cf : ℚ)
    (s s2 : PBState) (hs : PBInv w t s)
    (hstep : pbStep w s t cf = some s2) : PBInv w (t + 1) s2 := by
  have hb : (0 : ℚ) < 1 + w := by linarith
  have hpt : (0 : ℚ) < (1 + w) ^ t := pow_pos hb t
  have hptne : (1 + w) ^ t ≠ 0 := ne_of_gt hpt
  have hdpos : (0 : ℚ) < 1 / (1 + w) ^ t := by positivity
  have hd1pos : (0 : ℚ) < 1 / (1 + w) ^ (t + 1) := by positivity
  have hdd : 1 / (1 + w) ^ (t + 1) ≤ 1 / (1 + w) ^ t := by
    apply one_div_le_one_div_of_le hpt
    exact pow_le_pow_right₀ (by linarith) (Nat.le_succ t)
  have htQ : (1 : ℚ) ≤ (t : ℚ) := by exact_mod_cast ht
  have hcastt : ((t + 1 : ℕ) : ℚ) - 1 = (t : ℚ) := by push_cast; ring
  rcases hs with ⟨hpz, hdz, hcum, hzero, hK⟩ | ⟨hpn, hdz, hple, hcumd⟩ | ⟨hpn, hdn, hle⟩
  · -- phase A: both results unset
    by_cases hge : 0 ≤ s.cumulative_cf + cf
    · -- undiscounted crossing test succeeds
      by_cases hcf : cf = 0
      · -- a zero flow at a crossing raises: contradicts a successful step
        exfalso
        have hppn : ppStep s t cf = none := by
          unfold ppStep
          rw [if_pos hpz, if_pos hge, if_pos hcf]
        have hn : pbStep w s t cf = none := by
          unfold pbStep
          rw [hppn]
        rw [hn] at hstep
        exact Option.noConfusion hstep
      · have hpp : ppStep s t cf
            = some { s with payback_period :=
                (t : ℚ) - 1 + |s.cumulative_cf| / cf } :=
          ppStep_of_fire s t cf hpz hge hcf
        rcases lt_or_eq_of_le hcum with hclt | hc0
        · -- cumulative strictly negative before the crossing
          have hcfpos : 0 < cf := by linarith
          have habs : |s.cumulative_cf| = -s.cumulative_cf := abs_of_neg hclt
          have hfracpos : 0 < |s.cumulative_cf| / cf := by
            rw [habs]
            exact div_pos (by linarith) hcfpos
          have hfracle : |s.cumulative_cf| / cf ≤ 1 := by
            rw [habs, div_le_one hcfpos]
            linarith
          have hvpos : 0 < (t : ℚ) - 1 + |s.cumulative_cf| / cf := by linarith
          have hcumdn : s.cumulative_dcf < 0 := by
            have hcd : s.cumulative_cf * (1 / (1 + w) ^ t) < 0 :=
              mul_neg_of_neg_of_pos hclt hdpos
            linarith
          have hdcfpos : 0 < cf * (1 / (1 + w) ^ t) := mul_pos hcfpos hdpos
          by_cases hdge : 0 ≤ s.cumulative_dcf + cf * (1 / (1 + w) ^ t)
          · -- both record in the same year: phase D, ordered
            have hdfire := dppStep_of_fire w
              { s with payback_period := (t : ℚ) - 1 + |s.cumulative_cf| / cf }
              t cf hptne hdz hdge (ne_of_gt hdcfpos)
            rw [pbStep_eq_dppStep w s _ t cf hpp, hdfire] at hstep
            injection hstep with h2
            have hvdpos : 0 < (t : ℚ) - 1
                + |s.cumulative_dcf| / (cf * (1 / (1 + w) ^ t)) := by
              have hfr : 0 < |s.cumulative_dcf| / (cf * (1 / (1 + w) ^ t)) := by
                rw [abs_of_neg hcumdn]
                exact div_pos (by linarith) hdcfpos
              linarith
            refine PBInv_intro w (t + 1) s2
              s.cumulative_cf
              ((t : ℚ) - 1 + |s.cumulative_cf| / cf)
              s.cumulative_dcf
              ((t : ℚ) - 1 + |s.cumulative_dcf| / (cf * (1 / (1 + w) ^ t)))
              (by rw [← h2]) (by rw [← h2]) (by rw [← h2]) (by rw [← h2])
              (Or.inr (Or.inr ⟨ne_of_gt hvpos, ne_of_gt hvdpos, ?_⟩))
            have hgoal : |s.cumulative_cf| / cf
                ≤ |s.cumulative_dcf| / (cf * (1 / (1 + w) ^ t)) := by
              rw [habs, abs_of_neg hcumdn,
                div_le_div_iff₀ hcfpos hdcfpos]
              nlinarith [mul_le_mul_of_nonneg_right (neg_le_neg hK) (le_of_lt hcfpos)]
            linarith
          · -- the discounted test still fails: phase B
            have hdfail := dppStep_of_fail w
              { s with payback_period := (t : ℚ) - 1 + |s.cumulative_cf| / cf }
              t cf hptne hdz hdge
            rw [pbStep_eq_dppStep w s _ t cf hpp, hdfail] at hstep
            injection hstep with h2
            refine PBInv_intro w (t + 1) s2
              s.cumulative_cf
              ((t : ℚ) - 1 + |s.cumulative_cf| / cf)
              (s.cumulative_dcf + cf * (1 / (1 + w) ^ t))
              0
              (by rw [← h2]) (by rw [← h2]) (by rw [← h2])
              (by rw [← h2]; exact hdz)
              (Or.inr (Or.inl ⟨ne_of_gt hvpos, rfl, ?_, ?_⟩))
            · rw [hcastt]
              linarith
            · linarith [not_le.mp hdge]
        · -- the cumulative is exactly zero: both sides record the same value
          have hcumd0 : s.cumulative_dcf = 0 := hzero hc0
          have hcfpos : 0 < cf := by
            rcases lt_or_eq_of_le (by linarith [hge] : (0 : ℚ) ≤ cf) with h | h
            · exact h
            · exact absurd h.symm hcf
          have hdcfpos : 0 < cf * (1 / (1 + w) ^ t) := mul_pos hcfpos hdpos
          have hdge : 0 ≤ s.cumulative_dcf + cf * (1 / (1 + w) ^ t) := by
            rw [hcumd0]
            linarith
          have hdfire := dppStep_of_fire w
            { s with payback_period := (t : ℚ) - 1 + |s.cumulative_cf| / cf }
            t cf hptne hdz hdge (ne_of_gt hdcfpos)
          rw [pbStep_eq_dppStep w s _ t cf hpp, hdfire] at hstep
          injection hstep with h2
          have habs0 : |s.cumulative_cf| = 0 := by
            rw [hc0]
            exact abs_zero
          have habsd0 : |s.cumulative_dcf| = 0 := by
            rw [hcumd0]
            exact abs_zero
          have hvp : (t : ℚ) - 1 + |s.cumulative_cf| / cf = (t : ℚ) - 1 := by
            rw [habs0]
            simp
          have hvd : (t : ℚ) - 1 + |s.cumulative_dcf| / (cf * (1 / (1 + w) ^ t))
              = (t : ℚ) - 1 := by
            rw [habsd0]
            simp
          refine PBInv_intro w (t + 1) s2
            s.cumulative_cf
            ((t : ℚ) - 1 + |s.cumulative_cf| / cf)
            s.cumulative_dcf
            ((t : ℚ) - 1 + |s.cumulative_dcf| / (cf * (1 / (1 + w) ^ t)))
            (by rw [← h2]) (by rw [← h2]) (by rw [← h2]) (by rw [← h2]) ?_
          by_cases ht1 : (t : ℚ) - 1 = 0
          · -- year 1 with zero cumulative: the recorded values are 0.0, phase A persists
            refine Or.inl ⟨?_, ?_, hcum, hzero, ?_⟩
            · rw [hvp, ht1]
            · rw [hvd, ht1]
            · rw [hcumd0, hc0]
              simp
          · -- a later year: both record the nonzero value t - 1, phase D
            refine Or.inr (Or.inr ⟨?_, ?_, ?_⟩)
            · rw [hvp]
              exact ht1
            · rw [hvd]
              exact ht1
            · rw [hvp, hvd]
    · -- the undiscounted test fails: accumulate, and the discounted test fails too
      have hpp : ppStep s t cf
          = some { s with cumulative_cf := s.cumulative_cf + cf } :=
        ppStep_of_fail s t cf hpz hge
      have hcc : s.cumulative_cf + cf < 0 := not_le.mp hge
      have hdlt : s.cumulative_dcf + cf * (1 / (1 + w) ^ t) < 0 := by
        nlinarith [hK, mul_neg_of_neg_of_pos hcc hdpos]
      have hdfail := dppStep_of_fail w
        { s with cumulative_cf := s.cumulative_cf + cf } t cf hptne hdz
        (not_le.mpr hdlt)
      rw [pbStep_eq_dppStep w s _ t cf hpp, hdfail] at hstep
      injection hstep with h2
      refine PBInv_intro w (t + 1) s2
        (s.cumulative_cf + cf) 0
        (s.cumulative_dcf + cf * (1 / (1 + w) ^ t)) 0
        (by rw [← h2]) (by rw [← h2]; exact hpz) (by rw [← h2])
        (by rw [← h2]; exact hdz)
        (Or.inl ⟨rfl, rfl, le_of_lt hcc, fun h => absurd h (ne_of_lt hcc), ?_⟩)
      have h1 : s.cumulative_dcf + cf * (1 / (1 + w) ^ t)
          ≤ (s.cumulative_cf + cf) * (1 / (1 + w) ^ t) := by
        nlinarith [hK]
      have h2b : (s.cumulative_cf + cf) * (1 / (1 + w) ^ t)
          ≤ (s.cumulative_cf + cf) * (1 / (1 + w) ^ (t + 1)) := by
        nlinarith [hcc, hdd, hd1pos]
      linarith
  · -- phase B: only the undiscounted result is recorded
    have hpp : ppStep s t cf = some s := ppStep_of_ne s t cf hpn
    by_cases hdge : 0 ≤ s.cumulative_dcf + cf * (1 / (1 + w) ^ t)
    · have hdcfpos : 0 < cf * (1 / (1 + w) ^ t) := by linarith
      have hdfire := dppStep_of_fire w s t cf hptne hdz hdge (ne_of_gt hdcfpos)
      rw [pbStep_eq_dppStep w s s t cf hpp, hdfire] at hstep
      injection hstep with h2
      have hfracpos : 0 < |s.cumulative_dcf| / (cf * (1 / (1 + w) ^ t)) := by
        rw [abs_of_neg hcumd]
        exact div_pos (by linarith) hdcfpos
      have hvd : (t : ℚ) - 1
          < (t : ℚ) - 1 + |s.cumulative_dcf| / (cf * (1 / (1 + w) ^ t)) := by
        linarith
      refine PBInv_intro w (t + 1) s2
        s.cumulative_cf s.payback_period s.cumulative_dcf
        ((t : ℚ) - 1 + |s.cumulative_dcf| / (cf * (1 / (1 + w) ^ t)))
        (by rw [← h2]) (by rw [← h2]) (by rw [← h2]) (by rw [← h2])
        (Or.inr (Or.inr ⟨hpn, ?_, ?_⟩))
      · have hp0 : (0 : ℚ) < (t : ℚ) - 1
            + |s.cumulative_dcf| / (cf * (1 / (1 + w) ^ t)) := by
          linarith
        exact ne_of_gt hp0
      · linarith
    · have hdfail := dppStep_of_fail w s t cf hptne hdz hdge
      rw [pbStep_eq_dppStep w s s t cf hpp, hdfail] at hstep
      injection hstep with h2
      refine PBInv_intro w (t + 1) s2
        s.cumulative_cf s.payback_period
        (s.cumulative_dcf + cf * (1 / (1 + w) ^ t)) 0
        (by rw [← h2]) (by rw [← h2]) (by rw [← h2])
        (by rw [← h2]; exact hdz)
        (Or.inr (Or.inl ⟨hpn, rfl, ?_, ?_⟩))
      · rw [hcastt]
        linarith
      · exact not_le.mp hdge
  · -- phase D: both recorded, nothing changes
    have hpp : ppStep s t cf = some s := ppStep_of_ne s t cf hpn
    have hdin : dppStep w s t cf = some s := dppStep_of_ne w s t cf hptne hdn
    rw [pbStep_eq_dppStep w s s t cf hpp, hdin] at hstep
    injection hstep with h2
    exact PBInv_intro w (t + 1) s2
      s.cumulative_cf s.payback_period s.cumulative_dcf s.discounted_payback_period
      (by rw [← h2]) (by rw [← h2]) (by rw [← h2]) (by rw [← h2])
      (Or.inr (Or.inr ⟨hpn, hdn, hle⟩))

lemma pbRunFrom_inv (w : ℚ) (hw : 0 < w) :
    ∀ (flows : List ℚ) (t : ℕ) (s s2 : PBState), 1 ≤ t → PBInv w t s →
      pbRunFrom w s t flows = some s2 →
      ∃ u, PBInv w u s2 := by
  intro flows
  induction flows with
  | nil =>
    intro t s s2 _ hs hrun
    rw [pbRunFrom_nil] at hrun
    injection hrun with h
    subst h
    exact ⟨t, hs⟩
  | cons cf rest ih =>
    intro t s s2 ht hs hrun
    cases hstep : pbStep w s t cf with
    | none =>
      rw [pbRunFrom_cons_none w s t cf rest hstep] at hrun
      exact Option.noConfusion hrun
    | some s1 =>
      rw [pbRunFrom_cons_some w s s1 t cf rest hstep] at hrun
      exact ih (t + 1) s1 s2 (by omega)
        (pbStep_inv w hw t ht cf s s1 hs hstep) hrun

/-- Claim C8 counterexample: magnitude `1`, flows `[-10, 5, 100]`,
wacc `9` — the undiscounted cumulative recovers in year 3 giving a payback
of `2.06`, but the heavily discounted cumulative never reaches zero, so
the discounted payback keeps its sentinel value `0.0`, which is smaller
than the undiscounted payback. -/
theorem payback_order_violation :
    (0 : ℚ) < 9 ∧
    calculate_payback_periods 1 [-10, 5, 100] 9 = some (103/50, 0) ∧
    ¬ ((103/50 : ℚ) ≤ 0) := by
  refine ⟨by norm_num, ?_, by norm_num⟩
  norm_num [calculate_payback_periods, pbRunFrom, pbStep, ppStep, dppStep]

/-- Claim C8 (amended): for a non-negative initial magnitude and any
`wacc > 0`, whenever `calculate_payback_periods` returns successfully and
the discounted payback was actually recorded (is nonzero, not the
"never recovered" sentinel `0.0`), the discounted payback period is at
least the undiscounted payback period.  The unrestricted claim fails
because an unrecovered discounted cumulative leaves `dpp` at the sentinel
`0.0`, below any recorded undiscounted payback (see the counterexample). -/
theorem payback_discounted_ge (I w pp dpp : ℚ) (flows : List ℚ)
    (hI : 0 ≤ I) (hw : 0 < w)
    (hrun : calculate_payback_periods I flows w = some (pp, dpp))
    (hdpp : dpp ≠ 0) : pp ≤ dpp := by
  rcases hfold : pbRunFrom w ⟨-I, 0, -I, 0⟩ 1 flows with _ | s
  · unfold calculate_payback_periods at hrun
    rw [hfold] at hrun
    exact Option.noConfusion hrun
  · unfold calculate_payback_periods at hrun
    rw [hfold] at hrun
    injection hrun with h
    have hppf : s.payback_period = pp := congrArg Prod.fst h
    have hdpf : s.discounted_payback_period = dpp := congrArg Prod.snd h
    have hd0 : (0 : ℚ) < 1 / (1 + w) ^ 1 := by positivity
    have hdle : 1 / (1 + w) ^ 1 ≤ 1 := by
      rw [pow_one, div_le_one (by linarith)]
      linarith
    have hinv0 : PBInv w 1 ⟨-I, 0, -I, 0⟩ :=
      PBInv_intro w 1 _ (-I) 0 (-I) 0 rfl rfl rfl rfl
        (Or.inl ⟨rfl, rfl, by linarith, fun h2 => h2, by nlinarith⟩)
    obtain ⟨u, hinv⟩ := pbRunFrom_inv w hw flows 1 _ s le_rfl hinv0 hfold
    unfold PBInv at hinv
    rcases hinv with ⟨_, hdz, _, _, _⟩ | ⟨_, hdz, _, _⟩ | ⟨_, _, hle⟩
    · rw [hdpf] at hdz
      exact absurd hdz hdpp
    · rw [hdpf] at hdz
      exact absurd hdz hdpp
    · rw [hppf, hdpf] at hle
      exact hle

/-- Witness for the amended C8: magnitude `1`, one flow of `2`, wacc `1` —
the payback pair is `(1/2, 1)` and indeed `1/2 ≤ 1`. -/
theorem payback_discounted_ge_witness :
    (0 : ℚ) ≤ 1 ∧ (0 : ℚ) < 1 ∧
    calculate_payback_periods 1 [2] 1 = some (1/2, 1) ∧
    (1 : ℚ) ≠ 0 ∧ (1/2 : ℚ) ≤ 1 := by
  have hrun : calculate_payback_periods 1 [2] 1 = some (1/2, 1) := by
    norm_num [calculate_payback_periods, pbRunFrom, pbStep, ppStep, dppStep]
  exact ⟨by norm_num, by norm_num, hrun, by norm_num,
    payback_discounted_ge 1 1 (1/2) 1 [2] (by norm_num) (by norm_num) hrun
      (by norm_num)⟩

